import Mathlib

/-!
# Verification of the Miden assembly front end

A shallow embedding of the instruction-dispatch parsers
(`src/assembly/src/parsers/ast/stack_ops.rs`,
`src/assembly/src/ast/parsers/adv_ops.rs`) and of the AST binary
serialization described by the specification, together with theorems
settling the spec's claims about them.

Rust `&str` becomes `String`, `Vec` becomes `List`, byte/integer
immediates become `Nat` with explicit bounds, and fallible parsing
returns `Except ParsingError`.
-/

namespace Miden

/-- A single assembly statement split on `.` into parts: the operation
mnemonic is `parts[0]`, parameters follow.  Mirrors the `Token`
abstraction (`num_parts`, `parts`). -/
structure Token where
  parts : List String
deriving DecidableEq, Repr

/-- `Token::num_parts` — the number of `.`-separated parts. -/
def Token.num_parts (t : Token) : Nat := t.parts.length

/-- The parser error kinds produced by the instruction parsers
(`AssemblyError` / `ParsingError` constructors `missing_param`,
`extra_param`, `invalid_param`, `invalid_op`).  The Rust errors carry
the offending token and position for diagnostics; the embedding keeps
the error kind and, for `invalid_param`, the parameter index. -/
inductive ParsingError where
  | missingParam : ParsingError
  | extraParam : ParsingError
  | invalidParam : Nat → ParsingError
  | invalidOp : ParsingError
deriving DecidableEq, Repr

/-- `AdviceInjectorNode` variants from `adv_ops.rs`. -/
inductive AdviceInjectorNode where
  | PushU64div : AdviceInjectorNode
  | PushExt2intt : AdviceInjectorNode
  | PushSmtGet : AdviceInjectorNode
  | PushMapVal : AdviceInjectorNode
  | PushMtNode : AdviceInjectorNode
  | InsertMem : AdviceInjectorNode
  | InsertHdword : Nat → AdviceInjectorNode
deriving DecidableEq, Repr, BEq

/-- The `Instruction` variants appearing in the visible code: the
depth-selector stack-op families of `stack_ops.rs`, the advice
injectors of `adv_ops.rs`, and the variants exercised by the AST
tests (`tests.rs`).  Depth selectors are baked into the variant tag;
numeric immediates are `Nat` (field elements, u16 indices, byte
domains) and the imported-procedure digest is a 24-byte list. -/
inductive Instruction where
  | Dup0 | Dup1 | Dup2 | Dup3 | Dup4 | Dup5 | Dup6 | Dup7
  | Dup8 | Dup9 | Dup10 | Dup11 | Dup12 | Dup13 | Dup14 | Dup15
  | DupW0 | DupW1 | DupW2 | DupW3
  | Swap | Swap2 | Swap3 | Swap4 | Swap5 | Swap6 | Swap7 | Swap8
  | Swap9 | Swap10 | Swap11 | Swap12 | Swap13 | Swap14 | Swap15
  | SwapW | SwapW2 | SwapW3
  | MovUp2 | MovUp3 | MovUp4 | MovUp5 | MovUp6 | MovUp7 | MovUp8
  | MovUp9 | MovUp10 | MovUp11 | MovUp12 | MovUp13 | MovUp14 | MovUp15
  | MovDn2 | MovDn3 | MovDn4 | MovDn5 | MovDn6 | MovDn7 | MovDn8
  | MovDn9 | MovDn10 | MovDn11 | MovDn12 | MovDn13 | MovDn14 | MovDn15
  | MovUpW2 | MovUpW3
  | MovDnW2 | MovDnW3
  | AdvInject : AdviceInjectorNode → Instruction
  | PushConstants : List Nat → Instruction
  | Assertz
  | PadW
  | LocLoad : Nat → Instruction
  | LocStore : Nat → Instruction
  | ExecLocal : Nat → Instruction
  | ExecImported : List Nat → Instruction
  | AndOp
  | U32CheckedAdd
  | U32OverflowingMul

/-- The recursive AST `Node`: instruction leaves and control-flow
composites (`IfElse`, `Repeat` with a positive count, `While`). -/
inductive Node where
  | instruction : Instruction → Node
  | ifElse : List Node → List Node → Node
  | repeatN : Nat → List Node → Node
  | whileN : List Node → Node

/-- An ordered sequence of literal match arms with a catch-all, the
shape of the Rust `match op.parts()[1] { "0" => …, _ => err }`
dispatch: the first arm whose literal equals `s` wins. -/
def lookupArm : List (String × Instruction) → String → Option Instruction
  | [], _ => none
  | (k, v) :: rest, s => if s = k then some v else lookupArm rest s

/-- The literal arms of `parse_dup`. -/
def dupArms : List (String × Instruction) :=
  [("0", .Dup0), ("1", .Dup1), ("2", .Dup2), ("3", .Dup3),
   ("4", .Dup4), ("5", .Dup5), ("6", .Dup6), ("7", .Dup7),
   ("8", .Dup8), ("9", .Dup9), ("10", .Dup10), ("11", .Dup11),
   ("12", .Dup12), ("13", .Dup13), ("14", .Dup14), ("15", .Dup15)]

/-- The literal arms of `parse_dupw`. -/
def dupwArms : List (String × Instruction) :=
  [("0", .DupW0), ("1", .DupW1), ("2", .DupW2), ("3", .DupW3)]

/-- The literal arms of `parse_swap`. -/
def swapArms : List (String × Instruction) :=
  [("1", .Swap), ("2", .Swap2), ("3", .Swap3), ("4", .Swap4),
   ("5", .Swap5), ("6", .Swap6), ("7", .Swap7), ("8", .Swap8),
   ("9", .Swap9), ("10", .Swap10), ("11", .Swap11), ("12", .Swap12),
   ("13", .Swap13), ("14", .Swap14), ("15", .Swap15)]

/-- The literal arms of `parse_swapw`. -/
def swapwArms : List (String × Instruction) :=
  [("1", .SwapW), ("2", .SwapW2), ("3", .SwapW3)]

/-- The literal arms of `parse_movup`. -/
def movupArms : List (String × Instruction) :=
  [("2", .MovUp2), ("3", .MovUp3), ("4", .MovUp4), ("5", .MovUp5),
   ("6", .MovUp6), ("7", .MovUp7), ("8", .MovUp8), ("9", .MovUp9),
   ("10", .MovUp10), ("11", .MovUp11), ("12", .MovUp12),
   ("13", .MovUp13), ("14", .MovUp14), ("15", .MovUp15)]

/-- The literal arms of `parse_movdn`. -/
def movdnArms : List (String × Instruction) :=
  [("2", .MovDn2), ("3", .MovDn3), ("4", .MovDn4), ("5", .MovDn5),
   ("6", .MovDn6), ("7", .MovDn7), ("8", .MovDn8), ("9", .MovDn9),
   ("10", .MovDn10), ("11", .MovDn11), ("12", .MovDn12),
   ("13", .MovDn13), ("14", .MovDn14), ("15", .MovDn15)]

/-- The literal arms of `parse_movupw`. -/
def movupwArms : List (String × Instruction) :=
  [("2", .MovUpW2), ("3", .MovUpW3)]

/-- The literal arms of `parse_movdnw`. -/
def movdnwArms : List (String × Instruction) :=
  [("2", .MovDnW2), ("3", .MovDnW3)]

/-- `parse_dup` (`stack_ops.rs` lines 4–31): 0 parts is `missing_param`,
1 part defaults to `Dup0`, 2 parts dispatch the literal depth, more is
`extra_param`. -/
def parse_dup (op : Token) : Except ParsingError Node :=
  match op.parts with
  | [] => .error .missingParam
  | [_] => .ok (.instruction .Dup0)
  | [_, p] =>
    match lookupArm dupArms p with
    | some i => .ok (.instruction i)
    | none => .error (.invalidParam 1)
  | _ => .error .extraParam

/-- `parse_dupw` (`stack_ops.rs` lines 33–48). -/
def parse_dupw (op : Token) : Except ParsingError Node :=
  match op.parts with
  | [] => .error .missingParam
  | [_] => .ok (.instruction .DupW0)
  | [_, p] =>
    match lookupArm dupwArms p with
    | some i => .ok (.instruction i)
    | none => .error (.invalidParam 1)
  | _ => .error .extraParam

/-- Modelled from the spec: the `validate_operation!` macro invoked by
`parse_swap` and `parse_swapw` is not under `src/`.  Per §4.2 a
depth-selector family has "0 or 1 optional parameter"; fewer parameter
strings than the minimum is `MissingParam` and "any extra parameter
beyond the one optional slot is `ExtraParam`".  The guard checks the
parameter count (parts beyond the mnemonic) against the inclusive
range `lo..hi` and otherwise lets the parser body run. -/
def validate_operation (lo hi : Nat) (op : Token)
    (body : Except ParsingError Node) : Except ParsingError Node :=
  if op.num_parts - 1 < lo then .error .missingParam
  else if hi < op.num_parts - 1 then .error .extraParam
  else body

/-- `parse_swap` (`stack_ops.rs` lines 50–77): the
`validate_operation!(op, "swap", 0..1)` guard, then 1 part defaults to
`Swap`, 2 parts dispatch the literal depth. -/
def parse_swap (op : Token) : Except ParsingError Node :=
  validate_operation 0 1 op
    (match op.parts with
     | [_] => .ok (.instruction .Swap)
     | [_, p] =>
       match lookupArm swapArms p with
       | some i => .ok (.instruction i)
       | none => .error (.invalidParam 1)
     | _ => .error .extraParam)

/-- `parse_swapw` (`stack_ops.rs` lines 79–94). -/
def parse_swapw (op : Token) : Except ParsingError Node :=
  validate_operation 0 1 op
    (match op.parts with
     | [_] => .ok (.instruction .SwapW)
     | [_, p] =>
       match lookupArm swapwArms p with
       | some i => .ok (.instruction i)
       | none => .error (.invalidParam 1)
     | _ => .error .extraParam)

/-- `parse_movup` (`stack_ops.rs` lines 96–120): 0 or 1 parts is
`missing_param` (the depth is mandatory), 2 parts dispatch the literal
depth, more is `extra_param`. -/
def parse_movup (op : Token) : Except ParsingError Node :=
  match op.parts with
  | [] => .error .missingParam
  | [_] => .error .missingParam
  | [_, p] =>
    match lookupArm movupArms p with
    | some i => .ok (.instruction i)
    | none => .error (.invalidParam 1)
  | _ => .error .extraParam

/-- `parse_movdn` (`stack_ops.rs` lines 122–146). -/
def parse_movdn (op : Token) : Except ParsingError Node :=
  match op.parts with
  | [] => .error .missingParam
  | [_] => .error .missingParam
  | [_, p] =>
    match lookupArm movdnArms p with
    | some i => .ok (.instruction i)
    | none => .error (.invalidParam 1)
  | _ => .error .extraParam

/-- `parse_movupw` (`stack_ops.rs` lines 148–160). -/
def parse_movupw (op : Token) : Except ParsingError Node :=
  match op.parts with
  | [] => .error .missingParam
  | [_] => .error .missingParam
  | [_, p] =>
    match lookupArm movupwArms p with
    | some i => .ok (.instruction i)
    | none => .error (.invalidParam 1)
  | _ => .error .extraParam

/-- `parse_movdnw` (`stack_ops.rs` lines 162–174). -/
def parse_movdnw (op : Token) : Except ParsingError Node :=
  match op.parts with
  | [] => .error .missingParam
  | [_] => .error .missingParam
  | [_, p] =>
    match lookupArm movdnwArms p with
    | some i => .ok (.instruction i)
    | none => .error (.invalidParam 1)
  | _ => .error .extraParam

/-- One decimal digit of a parameter string, or `none` for a
non-digit character. -/
def digitVal (c : Char) : Option Nat :=
  if c.isDigit then some (c.toNat - 48) else none

/-- Accumulate decimal digits left to right; any non-digit character
fails the whole parse. -/
def decDigitsAux : List Char → Nat → Option Nat
  | [], acc => some acc
  | c :: cs, acc =>
    match digitVal c with
    | some d => decDigitsAux cs (acc * 10 + d)
    | none => none

/-- A non-empty all-digit character list as a number. -/
def decDigits : List Char → Option Nat
  | [] => none
  | cs => decDigitsAux cs 0

/-- Modelled from the spec: Rust's `str::parse::<u8>` as used by the
`parse_checked_param` helper, which is not under `src/`.  It accepts
an optional leading `+`, then one or more decimal digits, and fails
on any other character, on the empty string, and on values that do
not fit the byte type (so `-1`, `256` and non-numeric strings all
fail to parse). -/
def parseU8 (s : String) : Option Nat :=
  match (match s.data with
         | '+' :: cs => decDigits cs
         | cs => decDigits cs) with
  | some n => if n ≤ 255 then some n else none
  | none => none

/-- Modelled from the spec: `parse_checked_param` is not under `src/`.
§4.1: "given a token, a parameter index, and a target numeric range
`[lo, hi]`, parse the parameter string as the requested integer type;
fail with a `ParsingError::InvalidParam` if the string does not parse
or falls outside `[lo, hi]`", both bounds inclusive.  Specialised to
the byte type used at the `insert_hdword` call site. -/
def parse_checked_param (op : Token) (idx lo hi : Nat) :
    Except ParsingError Nat :=
  match parseU8 (op.parts.getD idx "") with
  | some v =>
    if lo ≤ v ∧ v ≤ hi then .ok v else .error (.invalidParam idx)
  | none => .error (.invalidParam idx)

/-- `parse_adv_inject` (`adv_ops.rs` lines 17–60): fewer than two
parts is `missing_param`; dispatch on the sub-mnemonic `parts[1]`;
all sub-kinds take zero further parameters except `insert_hdword`,
which takes an optional byte-validated domain defaulting to 0;
an unknown sub-mnemonic is `invalid_op`. -/
def parse_adv_inject (op : Token) : Except ParsingError Node :=
  if op.num_parts < 2 then .error .missingParam
  else
    let sub := op.parts.getD 1 ""
    if sub = "push_u64div" then
      match op.num_parts with
      | 2 => .ok (.instruction (.AdvInject .PushU64div))
      | _ => .error .extraParam
    else if sub = "push_ext2intt" then
      match op.num_parts with
      | 2 => .ok (.instruction (.AdvInject .PushExt2intt))
      | _ => .error .extraParam
    else if sub = "push_smtget" then
      match op.num_parts with
      | 2 => .ok (.instruction (.AdvInject .PushSmtGet))
      | _ => .error .extraParam
    else if sub = "push_mapval" then
      match op.num_parts with
      | 2 => .ok (.instruction (.AdvInject .PushMapVal))
      | _ => .error .extraParam
    else if sub = "push_mtnode" then
      match op.num_parts with
      | 2 => .ok (.instruction (.AdvInject .PushMtNode))
      | _ => .error .extraParam
    else if sub = "insert_mem" then
      match op.num_parts with
      | 2 => .ok (.instruction (.AdvInject .InsertMem))
      | _ => .error .extraParam
    else if sub = "insert_hdword" then
      match op.num_parts with
      | 2 => .ok (.instruction (.AdvInject (.InsertHdword 0)))
      | 3 =>
        match parse_checked_param op 2 0 255 with
        | .ok domain => .ok (.instruction (.AdvInject (.InsertHdword domain)))
        | .error e => .error e
      | _ => .error .extraParam
    else .error .invalidOp

/-- A fixed-width little-endian byte encoding of a number (§4.4:
"fixed-width integers").  Bytes are `Nat`s below 256. -/
def toBytesLE : Nat → Nat → List Nat
  | 0, _ => []
  | w + 1, v => v % 256 :: toBytesLE w (v / 256)

/-- Read a fixed-width little-endian number back from the byte
stream, failing on a truncated stream. -/
def readLE : Nat → List Nat → Option (Nat × List Nat)
  | 0, bs => some (0, bs)
  | _ + 1, [] => none
  | w + 1, b :: bs =>
    match readLE w bs with
    | some (v, r) => some (b + 256 * v, r)
    | none => none

/-- Read a fixed number of raw bytes (the fixed-width digest of an
imported-procedure reference), failing on a truncated stream. -/
def readN : Nat → List Nat → Option (List Nat × List Nat)
  | 0, bs => some ([], bs)
  | _ + 1, [] => none
  | n + 1, b :: bs =>
    match readN n bs with
    | some (xs, r) => some (b :: xs, r)
    | none => none

/-- Read a counted sequence of 8-byte field elements (the
length-prefixed constant list of a push instruction). -/
def readFelts : Nat → List Nat → Option (List Nat × List Nat)
  | 0, bs => some ([], bs)
  | n + 1, bs =>
    match readLE 8 bs with
    | some (v, r) =>
      match readFelts n r with
      | some (vs, r') => some (v :: vs, r')
      | none => none
    | none => none

/-- Modelled from the spec: the AST serializer is not under `src/`
(only its round-trip tests are).  §4.4: "each `Node` variant and each
`Instruction` variant is assigned a stable numeric tag; encoding
writes the tag followed by its immediates in a fixed field order and
fixed width".  Immediate-free instructions are a single tag byte;
instructions with immediates use tags 100–105 followed by their
payload (a domain byte, a length-prefixed 8-byte-element constant
list, 8-byte field elements, a 2-byte index, a 24-byte digest). -/
def encodeInstr : Instruction → List Nat
  | .Dup0 => [0]
  | .Dup1 => [1]
  | .Dup2 => [2]
  | .Dup3 => [3]
  | .Dup4 => [4]
  | .Dup5 => [5]
  | .Dup6 => [6]
  | .Dup7 => [7]
  | .Dup8 => [8]
  | .Dup9 => [9]
  | .Dup10 => [10]
  | .Dup11 => [11]
  | .Dup12 => [12]
  | .Dup13 => [13]
  | .Dup14 => [14]
  | .Dup15 => [15]
  | .DupW0 => [16]
  | .DupW1 => [17]
  | .DupW2 => [18]
  | .DupW3 => [19]
  | .Swap => [20]
  | .Swap2 => [21]
  | .Swap3 => [22]
  | .Swap4 => [23]
  | .Swap5 => [24]
  | .Swap6 => [25]
  | .Swap7 => [26]
  | .Swap8 => [27]
  | .Swap9 => [28]
  | .Swap10 => [29]
  | .Swap11 => [30]
  | .Swap12 => [31]
  | .Swap13 => [32]
  | .Swap14 => [33]
  | .Swap15 => [34]
  | .SwapW => [35]
  | .SwapW2 => [36]
  | .SwapW3 => [37]
  | .MovUp2 => [38]
  | .MovUp3 => [39]
  | .MovUp4 => [40]
  | .MovUp5 => [41]
  | .MovUp6 => [42]
  | .MovUp7 => [43]
  | .MovUp8 => [44]
  | .MovUp9 => [45]
  | .MovUp10 => [46]
  | .MovUp11 => [47]
  | .MovUp12 => [48]
  | .MovUp13 => [49]
  | .MovUp14 => [50]
  | .MovUp15 => [51]
  | .MovDn2 => [52]
  | .MovDn3 => [53]
  | .MovDn4 => [54]
  | .MovDn5 => [55]
  | .MovDn6 => [56]
  | .MovDn7 => [57]
  | .MovDn8 => [58]
  | .MovDn9 => [59]
  | .MovDn10 => [60]
  | .MovDn11 => [61]
  | .MovDn12 => [62]
  | .MovDn13 => [63]
  | .MovDn14 => [64]
  | .MovDn15 => [65]
  | .MovUpW2 => [66]
  | .MovUpW3 => [67]
  | .MovDnW2 => [68]
  | .MovDnW3 => [69]
  | .AdvInject .PushU64div => [70]
  | .AdvInject .PushExt2intt => [71]
  | .AdvInject .PushSmtGet => [72]
  | .AdvInject .PushMapVal => [73]
  | .AdvInject .PushMtNode => [74]
  | .AdvInject .InsertMem => [75]
  | .Assertz => [76]
  | .PadW => [77]
  | .AndOp => [78]
  | .U32CheckedAdd => [79]
  | .U32OverflowingMul => [80]
  | .AdvInject (.InsertHdword d) => [100, d]
  | .PushConstants vs => 101 :: vs.length :: vs.flatMap (toBytesLE 8)
  | .LocLoad v => 102 :: toBytesLE 8 v
  | .LocStore v => 103 :: toBytesLE 8 v
  | .ExecLocal i => 104 :: toBytesLE 2 i
  | .ExecImported dg => 105 :: dg

/-- The tag table of the immediate-free instructions, inverse to
`encodeInstr` on its single-byte range. -/
def decodeSimple : Nat → Option Instruction
  | 0 => some .Dup0
  | 1 => some .Dup1
  | 2 => some .Dup2
  | 3 => some .Dup3
  | 4 => some .Dup4
  | 5 => some .Dup5
  | 6 => some .Dup6
  | 7 => some .Dup7
  | 8 => some .Dup8
  | 9 => some .Dup9
  | 10 => some .Dup10
  | 11 => some .Dup11
  | 12 => some .Dup12
  | 13 => some .Dup13
  | 14 => some .Dup14
  | 15 => some .Dup15
  | 16 => some .DupW0
  | 17 => some .DupW1
  | 18 => some .DupW2
  | 19 => some .DupW3
  | 20 => some .Swap
  | 21 => some .Swap2
  | 22 => some .Swap3
  | 23 => some .Swap4
  | 24 => some .Swap5
  | 25 => some .Swap6
  | 26 => some .Swap7
  | 27 => some .Swap8
  | 28 => some .Swap9
  | 29 => some .Swap10
  | 30 => some .Swap11
  | 31 => some .Swap12
  | 32 => some .Swap13
  | 33 => some .Swap14
  | 34 => some .Swap15
  | 35 => some .SwapW
  | 36 => some .SwapW2
  | 37 => some .SwapW3
  | 38 => some .MovUp2
  | 39 => some .MovUp3
  | 40 => some .MovUp4
  | 41 => some .MovUp5
  | 42 => some .MovUp6
  | 43 => some .MovUp7
  | 44 => some .MovUp8
  | 45 => some .MovUp9
  | 46 => some .MovUp10
  | 47 => some .MovUp11
  | 48 => some .MovUp12
  | 49 => some .MovUp13
  | 50 => some .MovUp14
  | 51 => some .MovUp15
  | 52 => some .MovDn2
  | 53 => some .MovDn3
  | 54 => some .MovDn4
  | 55 => some .MovDn5
  | 56 => some .MovDn6
  | 57 => some .MovDn7
  | 58 => some .MovDn8
  | 59 => some .MovDn9
  | 60 => some .MovDn10
  | 61 => some .MovDn11
  | 62 => some .MovDn12
  | 63 => some .MovDn13
  | 64 => some .MovDn14
  | 65 => some .MovDn15
  | 66 => some .MovUpW2
  | 67 => some .MovUpW3
  | 68 => some .MovDnW2
  | 69 => some .MovDnW3
  | 70 => some (.AdvInject .PushU64div)
  | 71 => some (.AdvInject .PushExt2intt)
  | 72 => some (.AdvInject .PushSmtGet)
  | 73 => some (.AdvInject .PushMapVal)
  | 74 => some (.AdvInject .PushMtNode)
  | 75 => some (.AdvInject .InsertMem)
  | 76 => some .Assertz
  | 77 => some .PadW
  | 78 => some .AndOp
  | 79 => some .U32CheckedAdd
  | 80 => some .U32OverflowingMul
  | _ => none

/-- Decode one instruction: read the tag byte, dispatch to the
matching immediate reader (§4.4), failing on an unknown tag or a
truncated stream. -/
def decodeInstr : List Nat → Option (Instruction × List Nat)
  | [] => none
  | t :: bs =>
    if t = 100 then
      match bs with
      | d :: r => some (.AdvInject (.InsertHdword d), r)
      | [] => none
    else if t = 101 then
      match bs with
      | len :: r =>
        match readFelts len r with
        | some (vs, r') => some (.PushConstants vs, r')
        | none => none
      | [] => none
    else if t = 102 then
      match readLE 8 bs with
      | some (v, r) => some (.LocLoad v, r)
      | none => none
    else if t = 103 then
      match readLE 8 bs with
      | some (v, r) => some (.LocStore v, r)
      | none => none
    else if t = 104 then
      match readLE 2 bs with
      | some (v, r) => some (.ExecLocal v, r)
      | none => none
    else if t = 105 then
      match readN 24 bs with
      | some (dg, r) => some (.ExecImported dg, r)
      | none => none
    else
      match decodeSimple t with
      | some i => some (i, bs)
      | none => none

mutual

/-- Modelled from the spec (§4.4): encode a `Node` as its variant tag
followed by its immediates; child sequences are length-prefixed. -/
def encodeNode : Node → List Nat
  | .instruction i => 0 :: encodeInstr i
  | .ifElse t e =>
    1 :: ((t.length :: encodeNodes t) ++ (e.length :: encodeNodes e))
  | .repeatN c b => 2 :: (toBytesLE 4 c ++ (b.length :: encodeNodes b))
  | .whileN b => 3 :: (b.length :: encodeNodes b)

/-- The bodies of a node sequence, concatenated. -/
def encodeNodes : List Node → List Nat
  | [] => []
  | n :: ns => encodeNode n ++ encodeNodes ns

end

/-- The immediates of an `Instruction` satisfy their domain
constraints (§3). -/
def wfInstr : Instruction → Bool
  | .AdvInject (.InsertHdword d) => decide (d < 256)
  | .PushConstants vs =>
    decide (vs.length < 256) && vs.all (fun v => decide (v < 2 ^ 64))
  | .LocLoad v => decide (v < 2 ^ 64)
  | .LocStore v => decide (v < 2 ^ 64)
  | .ExecLocal i => decide (i < 2 ^ 16)
  | .ExecImported dg => decide (dg.length = 24) && dg.all (fun b => decide (b < 256))
  | _ => true

mutual

/-- The immediates of a `Node` satisfy their domain constraints (§3:
"by construction every stored immediate already satisfies its
opcode's domain constraints"; §4.3: a `Repeat` count is positive):
byte domains and sequence-length prefixes fit a byte, field elements
fit 8 bytes, indices fit 2 bytes, digests are 24 bytes. -/
def wfNode : Node → Bool
  | .instruction i => wfInstr i
  | .ifElse t e =>
    decide (t.length < 256) && decide (e.length < 256) && wfNodes t && wfNodes e
  | .repeatN c b =>
    decide (0 < c) && decide (c < 2 ^ 32) && decide (b.length < 256) && wfNodes b
  | .whileN b => decide (b.length < 256) && wfNodes b

/-- All nodes of a sequence are well-formed. -/
def wfNodes : List Node → Bool
  | [] => true
  | n :: ns => wfNode n && wfNodes ns

end

mutual

/-- The number of nodes in a tree, the measure driving the decoder's
fuel. -/
def nodeSize : Node → Nat
  | .instruction _ => 1
  | .ifElse t e => 1 + nodesSize t + nodesSize e
  | .repeatN _ b => 1 + nodesSize b
  | .whileN b => 1 + nodesSize b

/-- The number of nodes in a forest. -/
def nodesSize : List Node → Nat
  | [] => 0
  | n :: ns => nodeSize n + nodesSize ns

end

mutual

/-- Decode one `Node`: read the variant tag and dispatch (§4.4),
failing on an unknown tag or a truncated stream.  `fuel` bounds the
recursion depth; the callers pass the input length, which always
suffices because every node consumes at least one byte. -/
def decodeNode : Nat → List Nat → Option (Node × List Nat)
  | 0, _ => none
  | fuel + 1, bs =>
    match bs with
    | 0 :: bs =>
      match decodeInstr bs with
      | some (i, r) => some (.instruction i, r)
      | none => none
    | 1 :: bs =>
      match decodeSeq fuel bs with
      | some (t, r) =>
        match decodeSeq fuel r with
        | some (e, r') => some (.ifElse t e, r')
        | none => none
      | none => none
    | 2 :: bs =>
      match readLE 4 bs with
      | some (c, r) =>
        match decodeSeq fuel r with
        | some (b, r') => some (.repeatN c b, r')
        | none => none
      | none => none
    | 3 :: bs =>
      match decodeSeq fuel bs with
      | some (b, r) => some (.whileN b, r)
      | none => none
    | _ => none
termination_by fuel _ => (fuel, 0, 0)

/-- Decode a length-prefixed node sequence. -/
def decodeSeq : Nat → List Nat → Option (List Node × List Nat)
  | fuel, bs =>
    match bs with
    | [] => none
    | len :: bs => decodeNodes fuel len bs
termination_by fuel _ => (fuel, 2, 0)

/-- Decode a counted node sequence. -/
def decodeNodes : Nat → Nat → List Nat → Option (List Node × List Nat)
  | _, 0, bs => some ([], bs)
  | fuel, n + 1, bs =>
    match decodeNode fuel bs with
    | some (nd, r) =>
      match decodeNodes fuel n r with
      | some (tl, r') => some (nd :: tl, r')
      | none => none
    | none => none
termination_by fuel n _ => (fuel, 1, n)

end

/-- `ProcedureAst`: name, export flag, declared local count, assigned
dense index, body (§3). -/
structure ProcedureAst where
  name : String
  is_export : Bool
  num_locals : Nat
  index : Nat
  body : List Node

/-- `ProgramAst`: local procedures plus a top-level body (§3).  The
procedure map is carried in its deterministic sorted-by-name
iteration order (§4.4). -/
structure ProgramAst where
  procedures : List ProcedureAst
  body : List Node

/-- `ModuleAst`: module-scope procedures, no top-level body (§3). -/
structure ModuleAst where
  procedures : List ProcedureAst

/-- A length-prefixed string: character count, then each character's
codepoint in 4 fixed bytes. -/
def encodeString (s : String) : List Nat :=
  s.data.length :: s.data.flatMap (fun c => toBytesLE 4 c.toNat)

/-- Read a counted sequence of 4-byte codepoints back as characters. -/
def readChars : Nat → List Nat → Option (List Char × List Nat)
  | 0, bs => some ([], bs)
  | n + 1, bs =>
    match readLE 4 bs with
    | some (v, r) =>
      match readChars n r with
      | some (cs, r') => some (Char.ofNat v :: cs, r')
      | none => none
    | none => none

/-- Decode a length-prefixed string. -/
def decodeString (bs : List Nat) : Option (String × List Nat) :=
  match bs with
  | [] => none
  | len :: bs =>
    match readChars len bs with
    | some (cs, r) => some (⟨cs⟩, r)
    | none => none

/-- Modelled from the spec (§4.4): encode a procedure's fields in a
fixed order: name, export flag byte, 2-byte local count, 2-byte
index, length-prefixed body. -/
def encodeProc (p : ProcedureAst) : List Nat :=
  encodeString p.name ++ ((if p.is_export then 1 else 0) ::
    (toBytesLE 2 p.num_locals ++ (toBytesLE 2 p.index ++
      (p.body.length :: encodeNodes p.body))))

/-- Read an export-flag byte back as a `Bool`, failing on any byte
other than 0 or 1. -/
def readBool : List Nat → Option (Bool × List Nat)
  | 0 :: r => some (false, r)
  | 1 :: r => some (true, r)
  | _ => none

/-- Decode one procedure. -/
def decodeProc (fuel : Nat) (bs : List Nat) :
    Option (ProcedureAst × List Nat) :=
  match decodeString bs with
  | some (name, r) =>
    match readBool r with
    | some (ex, r) =>
      match readLE 2 r with
      | some (nl, r) =>
        match readLE 2 r with
        | some (ix, r) =>
          match decodeSeq fuel r with
          | some (body, r) => some (⟨name, ex, nl, ix, body⟩, r)
          | none => none
        | none => none
      | none => none
    | none => none
  | none => none

/-- Decode a counted procedure sequence. -/
def decodeProcs : Nat → Nat → List Nat → Option (List ProcedureAst × List Nat)
  | _, 0, bs => some ([], bs)
  | fuel, n + 1, bs =>
    match decodeProc fuel bs with
    | some (p, r) =>
      match decodeProcs fuel n r with
      | some (ps, r') => some (p :: ps, r')
      | none => none
    | none => none

/-- A procedure's immediates satisfy their constraints: the name and
body lengths fit the length-prefix byte, counts and indices fit
their fixed widths, the body is well-formed. -/
def wfProc (p : ProcedureAst) : Bool :=
  decide (p.name.data.length < 256) && decide (p.num_locals < 2 ^ 16) &&
    decide (p.index < 2 ^ 16) && decide (p.body.length < 256) && wfNodes p.body

/-- A well-formed program: every stored immediate in range (§3's
construction invariant for successfully parsed ASTs). -/
def wfProgram (ast : ProgramAst) : Bool :=
  decide (ast.procedures.length < 256) && ast.procedures.all wfProc &&
    decide (ast.body.length < 256) && wfNodes ast.body

/-- A well-formed module. -/
def wfModule (m : ModuleAst) : Bool :=
  decide (m.procedures.length < 256) && m.procedures.all wfProc

/-- Modelled from the spec (§4.4): `ProgramAst::to_bytes` — the
counted procedure map in its deterministic order, then the
length-prefixed top-level body. -/
def programToBytes (ast : ProgramAst) : List Nat :=
  ast.procedures.length :: (ast.procedures.flatMap encodeProc ++
    (ast.body.length :: encodeNodes ast.body))

/-- Modelled from the spec (§4.4): `ProgramAst::from_bytes` — decode
the procedures and body and require the stream to be fully
consumed. -/
def programFromBytes (bs : List Nat) : Option ProgramAst :=
  match bs with
  | [] => none
  | n :: r =>
    match decodeProcs bs.length n r with
    | some (ps, r') =>
      match decodeSeq bs.length r' with
      | some (body, r'') => if r'' = [] then some ⟨ps, body⟩ else none
      | none => none
    | none => none

/-- Modelled from the spec (§4.4): `ModuleAst::to_bytes`. -/
def moduleToBytes (m : ModuleAst) : List Nat :=
  m.procedures.length :: m.procedures.flatMap encodeProc

/-- Modelled from the spec (§4.4): `ModuleAst::from_bytes`. -/
def moduleFromBytes (bs : List Nat) : Option ModuleAst :=
  match bs with
  | [] => none
  | n :: r =>
    match decodeProcs bs.length n r with
    | some (ps, r') => if r' = [] then some ⟨ps⟩ else none
    | none => none

/-- A concrete program with a local procedure and a deeply nested
body, mirroring the shape of the `test_ast_program_serde_control_flow`
and `test_ast_parsing_program_proc` sources. -/
def sampleProgram : ProgramAst :=
  ⟨[⟨"foo", false, 1, 0, [.instruction (.LocLoad 0)]⟩,
    ⟨"bar", false, 2, 1, [.instruction .PadW]⟩],
   [.repeatN 3
      [.instruction (.PushConstants [1]),
       .instruction (.PushConstants [0, 1]),
       .ifElse
         [.instruction .AndOp, .instruction (.LocStore 0)]
         [.instruction .PadW]],
    .whileN
      [.instruction (.PushConstants [5, 7]),
       .instruction .U32CheckedAdd,
       .instruction (.LocStore 1)],
    .instruction (.ExecLocal 0),
    .instruction (.AdvInject (.InsertHdword 7)),
    .instruction (.ExecImported (List.replicate 24 0)),
    .instruction .Assertz]⟩

/-- A concrete module with one exported procedure, mirroring the
shape of the `test_ast_parsing_module` source. -/
def sampleModule : ModuleAst :=
  ⟨[⟨"foo", true, 1, 0, [.instruction (.LocLoad 0)]⟩]⟩

/-- A literal-arm dispatch succeeds exactly on the listed literals. -/
theorem lookupArm_isSome_iff (arms : List (String × Instruction)) (s : String) :
    (lookupArm arms s).isSome ↔ s ∈ arms.map Prod.fst := by
  induction arms with
  | nil => simp [lookupArm]
  | cons kv rest ih =>
    obtain ⟨k, v⟩ := kv
    by_cases h : s = k <;> simp [lookupArm, h, ih]

/-- A literal-arm dispatch falls to the catch-all exactly off the
listed literals. -/
theorem lookupArm_eq_none_iff (arms : List (String × Instruction)) (s : String) :
    lookupArm arms s = none ↔ ¬ s ∈ arms.map Prod.fst := by
  rw [← lookupArm_isSome_iff, Option.isSome_iff_exists]
  cases lookupArm arms s <;> simp

/-- Reading back a fixed-width little-endian number. -/
theorem readLE_toBytesLE (w : Nat) :
    ∀ v rest, v < 256 ^ w → readLE w (toBytesLE w v ++ rest) = some (v, rest) := by
  induction w with
  | zero =>
    intro v rest hv
    have : v = 0 := by simpa using Nat.lt_one_iff.mp (by simpa using hv)
    subst this
    rfl
  | succ w ih =>
    intro v rest hv
    have hdiv : v / 256 < 256 ^ w := by
      apply Nat.div_lt_of_lt_mul
      calc v < 256 ^ (w + 1) := hv
        _ = 256 * 256 ^ w := by ring
    simp only [toBytesLE, List.cons_append, readLE, List.append_eq]
    rw [ih (v / 256) rest hdiv]
    simp [Nat.mod_add_div]

/-- Reading back a fixed-length raw byte block. -/
theorem readN_append (xs : List Nat) :
    ∀ rest, readN xs.length (xs ++ rest) = some (xs, rest) := by
  induction xs with
  | nil => intro rest; rfl
  | cons b tl ih =>
    intro rest
    simp only [List.length_cons, List.cons_append, readN, List.append_eq]
    rw [ih rest]

/-- Reading back a counted sequence of 8-byte field elements. -/
theorem readFelts_flatMap (vs : List Nat) :
    ∀ rest, (∀ v ∈ vs, v < 2 ^ 64) →
      readFelts vs.length (vs.flatMap (toBytesLE 8) ++ rest) = some (vs, rest) := by
  induction vs with
  | nil => intro rest _; rfl
  | cons v tl ih =>
    intro rest h
    have hv : v < 256 ^ 8 := by
      have := h v (List.mem_cons_self v tl)
      norm_num at this ⊢
      exact this
    have htl := ih rest (fun x hx => h x (List.mem_cons_of_mem _ hx))
    simp only [List.length_cons, List.flatMap_cons, List.append_assoc, readFelts,
      List.append_eq]
    rw [readLE_toBytesLE 8 v _ hv]
    simp [htl]

/-- Reading back a counted sequence of 4-byte character codepoints. -/
theorem readChars_flatMap (cs : List Char) :
    ∀ rest, readChars cs.length
      (cs.flatMap (fun c => toBytesLE 4 c.toNat) ++ rest) = some (cs, rest) := by
  induction cs with
  | nil => intro rest; rfl
  | cons c tl ih =>
    intro rest
    have hc : c.toNat < 256 ^ 4 := by
      have h := c.val.toNat_lt
      simp only [Char.toNat]
      norm_num
      exact h
    simp only [List.length_cons, List.flatMap_cons, List.append_assoc, readChars,
      List.append_eq]
    rw [readLE_toBytesLE 4 c.toNat _ hc]
    simp [ih rest, Char.ofNat_toNat]

/-- Reading back a length-prefixed string. -/
theorem decodeString_encodeString (s : String) (rest : List Nat) :
    decodeString (encodeString s ++ rest) = some (s, rest) := by
  simp only [encodeString, List.cons_append, decodeString]
  rw [readChars_flatMap s.data rest]

/-- The instruction codec round-trips every well-formed instruction
(§4.4), leaving the rest of the stream untouched. -/
theorem decodeInstr_encodeInstr (i : Instruction) (rest : List Nat)
    (h : wfInstr i = true) :
    decodeInstr (encodeInstr i ++ rest) = some (i, rest) := by
  cases i
  case AdvInject a => cases a <;> rfl
  case PushConstants vs =>
    simp only [wfInstr, Bool.and_eq_true, decide_eq_true_eq, List.all_eq_true] at h
    have hrf := readFelts_flatMap vs rest (fun v hv => h.2 v hv)
    simp [encodeInstr, decodeInstr, hrf]
  case LocLoad v =>
    simp only [wfInstr, decide_eq_true_eq] at h
    have hb : v < 256 ^ 8 := by norm_num at h ⊢; exact h
    simp [encodeInstr, decodeInstr, readLE_toBytesLE 8 v rest hb]
  case LocStore v =>
    simp only [wfInstr, decide_eq_true_eq] at h
    have hb : v < 256 ^ 8 := by norm_num at h ⊢; exact h
    simp [encodeInstr, decodeInstr, readLE_toBytesLE 8 v rest hb]
  case ExecLocal v =>
    simp only [wfInstr, decide_eq_true_eq] at h
    have hb : v < 256 ^ 2 := by norm_num at h ⊢; exact h
    simp [encodeInstr, decodeInstr, readLE_toBytesLE 2 v rest hb]
  case ExecImported dg =>
    simp only [wfInstr, Bool.and_eq_true, decide_eq_true_eq] at h
    have hn := readN_append dg rest
    rw [h.1] at hn
    simp [encodeInstr, decodeInstr, hn]
  all_goals rfl

/-- Every node occupies at least one unit of the decoder's fuel. -/
theorem nodeSize_pos (n : Node) : 1 ≤ nodeSize n := by
  cases n <;> simp only [nodeSize] <;> omega

/-- Decoding a counted node sequence round-trips, assuming the
single-node round-trip at the same fuel. -/
theorem decodeNodes_encodeNodes_of (fuel : Nat)
    (hP : ∀ n rest, wfNode n = true → nodeSize n ≤ fuel →
      decodeNode fuel (encodeNode n ++ rest) = some (n, rest)) :
    ∀ ns rest, wfNodes ns = true → nodesSize ns ≤ fuel →
      decodeNodes fuel ns.length (encodeNodes ns ++ rest) = some (ns, rest) := by
  intro ns
  induction ns with
  | nil =>
    intro rest _ _
    simp [encodeNodes, decodeNodes]
  | cons n tl ih =>
    intro rest hwf hsz
    simp only [wfNodes, Bool.and_eq_true] at hwf
    simp only [nodesSize] at hsz
    have hsz1 : nodeSize n ≤ fuel := by omega
    have hsz2 : nodesSize tl ≤ fuel := by omega
    simp only [encodeNodes, List.length_cons, List.append_assoc, decodeNodes,
      List.append_eq]
    rw [hP n _ hwf.1 hsz1]
    simp [ih _ hwf.2 hsz2]

/-- The node codec round-trips every well-formed node when given at
least its size in fuel. -/
theorem decodeNode_encodeNode : ∀ (fuel : Nat) (n : Node) (rest : List Nat),
    wfNode n = true → nodeSize n ≤ fuel →
    decodeNode fuel (encodeNode n ++ rest) = some (n, rest) := by
  intro fuel
  induction fuel with
  | zero =>
    intro n rest _ hsz
    exact absurd hsz (by have := nodeSize_pos n; omega)
  | succ f ihf =>
    have hQ := decodeNodes_encodeNodes_of f ihf
    intro n rest hwf hsz
    cases n with
    | instruction i =>
      simp only [encodeNode, List.cons_append, decodeNode]
      rw [decodeInstr_encodeInstr i rest (by simpa [wfNode] using hwf)]
    | ifElse t e =>
      simp only [wfNode, Bool.and_eq_true, decide_eq_true_eq] at hwf
      obtain ⟨⟨⟨_, _⟩, hwt⟩, hwe⟩ := hwf
      simp only [nodeSize] at hsz
      have hst : nodesSize t ≤ f := by omega
      have hse : nodesSize e ≤ f := by omega
      simp only [encodeNode, List.cons_append, List.append_assoc, decodeNode,
        decodeSeq, List.append_eq]
      rw [hQ t _ hwt hst]
      simp [decodeSeq, hQ e rest hwe hse]
    | repeatN c b =>
      simp only [wfNode, Bool.and_eq_true, decide_eq_true_eq] at hwf
      obtain ⟨⟨⟨_, hc⟩, _⟩, hwb⟩ := hwf
      simp only [nodeSize] at hsz
      have hsb : nodesSize b ≤ f := by omega
      have hcb : c < 256 ^ 4 := by norm_num at hc ⊢; exact hc
      simp only [encodeNode, List.cons_append, List.append_assoc, decodeNode,
        decodeSeq, List.append_eq]
      rw [readLE_toBytesLE 4 c _ hcb]
      simp [decodeSeq, hQ b rest hwb hsb]
    | whileN b =>
      simp only [wfNode, Bool.and_eq_true, decide_eq_true_eq] at hwf
      simp only [nodeSize] at hsz
      have hsb : nodesSize b ≤ f := by omega
      simp only [encodeNode, List.cons_append, List.append_assoc, decodeNode,
        decodeSeq, List.append_eq]
      rw [hQ b rest hwf.2 hsb]

/-- Every encoded node occupies at least its size in bytes, so the
input length always provides enough decoder fuel. -/
theorem size_le_encode_length : ∀ k : Nat,
    (∀ n : Node, nodeSize n ≤ k → nodeSize n ≤ (encodeNode n).length) ∧
    (∀ ns : List Node, nodesSize ns ≤ k → nodesSize ns ≤ (encodeNodes ns).length) := by
  intro k
  induction k with
  | zero =>
    constructor
    · intro n hn
      have := nodeSize_pos n
      omega
    · intro ns hns
      omega
  | succ k ih =>
    have hnode : ∀ n : Node, nodeSize n ≤ k + 1 →
        nodeSize n ≤ (encodeNode n).length := by
      intro n hn
      cases n with
      | instruction i =>
        simp only [encodeNode, nodeSize, List.length_cons]
        omega
      | ifElse t e =>
        simp only [nodeSize] at hn ⊢
        have h1 := ih.2 t (by omega)
        have h2 := ih.2 e (by omega)
        simp only [encodeNode, List.length_cons, List.length_append]
        omega
      | repeatN c b =>
        simp only [nodeSize] at hn ⊢
        have h1 := ih.2 b (by omega)
        simp only [encodeNode, List.length_cons, List.length_append]
        omega
      | whileN b =>
        simp only [nodeSize] at hn ⊢
        have h1 := ih.2 b (by omega)
        simp only [encodeNode, List.length_cons, List.length_append]
        omega
    refine ⟨hnode, ?_⟩
    intro ns
    induction ns with
    | nil =>
      intro _
      simp [nodesSize]
    | cons n tl ihtl =>
      intro hns
      simp only [nodesSize] at hns ⊢
      have h1 := hnode n (by omega)
      have h2 := ihtl (by omega)
      simp only [encodeNodes, List.length_append]
      omega

/-- The fuel bound for a node forest, from its own encoding. -/
theorem nodesSize_le_length (ns : List Node) :
    nodesSize ns ≤ (encodeNodes ns).length :=
  (size_le_encode_length (nodesSize ns)).2 ns le_rfl

/-- A member's encoding is no longer than the whole concatenation. -/
theorem length_le_flatMap {α : Type} (f : α → List Nat) :
    ∀ (l : List α) (a : α), a ∈ l → (f a).length ≤ (l.flatMap f).length := by
  intro l
  induction l with
  | nil =>
    intro a ha
    simp at ha
  | cons b tl ih =>
    intro a ha
    simp only [List.flatMap_cons, List.length_append]
    rcases List.mem_cons.mp ha with h | h
    · subst h
      omega
    · have := ih a h
      omega

/-- The procedure codec round-trips every well-formed procedure when
given enough fuel for its body. -/
theorem decodeProc_encodeProc (fuel : Nat) (p : ProcedureAst) (rest : List Nat)
    (hwf : wfProc p = true) (hsz : nodesSize p.body ≤ fuel) :
    decodeProc fuel (encodeProc p ++ rest) = some (p, rest) := by
  obtain ⟨name, ex, nl, ix, body⟩ := p
  simp only [wfProc, Bool.and_eq_true, decide_eq_true_eq] at hwf
  obtain ⟨⟨⟨⟨_, hnl⟩, hix⟩, _⟩, hwb⟩ := hwf
  have hQ := decodeNodes_encodeNodes_of fuel
    (fun n r hw hs => decodeNode_encodeNode fuel n r hw hs)
  have hnl2 : nl < 256 ^ 2 := by norm_num at hnl ⊢; exact hnl
  have hix2 : ix < 256 ^ 2 := by norm_num at hix ⊢; exact hix
  have hbody := hQ body rest hwb hsz
  simp only [encodeProc, List.append_assoc, List.cons_append, decodeProc]
  rw [decodeString_encodeString]
  cases ex <;>
    simp only [Bool.false_eq_true, if_true, if_false, readBool] <;>
    rw [readLE_toBytesLE 2 nl _ hnl2] <;>
    simp only [] <;>
    rw [readLE_toBytesLE 2 ix _ hix2] <;>
    simp [decodeSeq, hbody]

/-- The counted procedure sequence round-trips. -/
theorem decodeProcs_flatMap (fuel : Nat) :
    ∀ (ps : List ProcedureAst) (rest : List Nat),
      ps.all wfProc = true →
      (∀ p ∈ ps, nodesSize p.body ≤ fuel) →
      decodeProcs fuel ps.length (ps.flatMap encodeProc ++ rest) = some (ps, rest) := by
  intro ps
  induction ps with
  | nil =>
    intro rest _ _
    rfl
  | cons p tl ih =>
    intro rest hwf hsz
    simp only [List.all_cons, Bool.and_eq_true] at hwf
    simp only [List.length_cons, List.flatMap_cons, List.append_assoc, decodeProcs,
      List.append_eq]
    rw [decodeProc_encodeProc fuel p _ hwf.1 (hsz p (List.mem_cons_self p tl))]
    simp [ih _ hwf.2 (fun q hq => hsz q (List.mem_cons_of_mem _ hq))]

/-- A fixed-width encoding has its fixed width. -/
theorem toBytesLE_length (w : Nat) : ∀ v, (toBytesLE w v).length = w := by
  induction w with
  | zero =>
    intro v
    rfl
  | succ w ih =>
    intro v
    simp [toBytesLE, ih]

/-- `deserialize(serialize(ast)) = ast` for every well-formed
program. -/
theorem programFromBytes_programToBytes (ast : ProgramAst)
    (h : wfProgram ast = true) :
    programFromBytes (programToBytes ast) = some ast := by
  obtain ⟨ps, body⟩ := ast
  simp only [wfProgram, Bool.and_eq_true, decide_eq_true_eq] at h
  obtain ⟨⟨⟨_, hps⟩, _⟩, hwb⟩ := h
  simp only [programToBytes, programFromBytes]
  generalize hL :
    (ps.length :: (ps.flatMap encodeProc ++ (body.length :: encodeNodes body))).length = L
  simp only [List.length_cons, List.length_append] at hL
  have hFb : nodesSize body ≤ L := by
    have h1 := nodesSize_le_length body
    omega
  have hFp : ∀ p ∈ ps, nodesSize p.body ≤ L := by
    intro p hp
    have h1 := nodesSize_le_length p.body
    have h2 : (encodeNodes p.body).length ≤ (encodeProc p).length := by
      simp only [encodeProc, List.length_append, List.length_cons, toBytesLE_length]
      omega
    have h3 := length_le_flatMap encodeProc ps p hp
    omega
  rw [decodeProcs_flatMap L ps _ hps hFp]
  have hbody : decodeNodes L body.length (encodeNodes body) = some (body, []) := by
    have h1 := decodeNodes_encodeNodes_of L
      (fun n r hw hs => decodeNode_encodeNode L n r hw hs) body [] hwb hFb
    simpa using h1
  simp [decodeSeq, hbody]

/-- `deserialize(serialize(m)) = m` for every well-formed module. -/
theorem moduleFromBytes_moduleToBytes (m : ModuleAst)
    (h : wfModule m = true) :
    moduleFromBytes (moduleToBytes m) = some m := by
  obtain ⟨ps⟩ := m
  simp only [wfModule, Bool.and_eq_true, decide_eq_true_eq] at h
  simp only [moduleToBytes, moduleFromBytes]
  generalize hL : (ps.length :: ps.flatMap encodeProc).length = L
  simp only [List.length_cons, List.length_append] at hL
  have hFp : ∀ p ∈ ps, nodesSize p.body ≤ L := by
    intro p hp
    have h1 := nodesSize_le_length p.body
    have h2 : (encodeNodes p.body).length ≤ (encodeProc p).length := by
      simp only [encodeProc, List.length_append, List.length_cons, toBytesLE_length]
      omega
    have h3 := length_le_flatMap encodeProc ps p hp
    omega
  have hprocs := decodeProcs_flatMap L ps [] h.2 hFp
  simp only [List.append_nil] at hprocs
  simp [hprocs]

/-- A parser outcome produced by a literal-arm dispatch succeeds
exactly on the table's literals and otherwise reports the parameter
invalid. -/
theorem table_parse_iff (arms : List (String × Instruction)) (s : String)
    (e : Except ParsingError Node)
    (he : e = (match lookupArm arms s with
               | some i => Except.ok (Node.instruction i)
               | none => Except.error (ParsingError.invalidParam 1))) :
    ((∃ n, e = .ok n) ↔ s ∈ arms.map Prod.fst) ∧
    (¬ s ∈ arms.map Prod.fst → e = .error (.invalidParam 1)) := by
  subst he
  cases hl : lookupArm arms s with
  | some i =>
    have hmem : s ∈ arms.map Prod.fst := by
      rw [← lookupArm_isSome_iff, hl]
      rfl
    exact ⟨by simp [hmem], fun h => absurd hmem h⟩
  | none =>
    have hmem : ¬ s ∈ arms.map Prod.fst := (lookupArm_eq_none_iff arms s).mp hl
    exact ⟨by simp [hmem], fun _ => rfl⟩

/-- C1 (counterexample): the claim asserts that every depth-selector
family parser accepts a bare mnemonic, but the move-up/move-down
parsers reject it with `MissingParam`. -/
theorem claim_C1_counterexample :
    parse_movup ⟨["movup"]⟩ = .error .missingParam ∧
    parse_movdn ⟨["movdn"]⟩ = .error .missingParam ∧
    parse_movupw ⟨["movupw"]⟩ = .error .missingParam ∧
    parse_movdnw ⟨["movdnw"]⟩ = .error .missingParam :=
  ⟨rfl, rfl, rfl, rfl⟩

/-- C1 (amended): only `parse_dup`, `parse_dupw`, `parse_swap` and
`parse_swapw` accept a bare mnemonic, defaulting to the family's
minimal meaningful depth (duplicate depth 0, swap depth 1); the
move-up/move-down parsers require the depth and reject a bare
mnemonic with `MissingParam`. -/
theorem claim_C1_amended :
    parse_dup ⟨["dup"]⟩ = .ok (.instruction .Dup0) ∧
    parse_dupw ⟨["dupw"]⟩ = .ok (.instruction .DupW0) ∧
    parse_swap ⟨["swap"]⟩ = .ok (.instruction .Swap) ∧
    parse_swapw ⟨["swapw"]⟩ = .ok (.instruction .SwapW) ∧
    parse_movup ⟨["movup"]⟩ = .error .missingParam ∧
    parse_movdn ⟨["movdn"]⟩ = .error .missingParam ∧
    parse_movupw ⟨["movupw"]⟩ = .error .missingParam ∧
    parse_movdnw ⟨["movdnw"]⟩ = .error .missingParam :=
  ⟨rfl, rfl, rfl, rfl, rfl, rfl, rfl, rfl⟩

/-- C2 (counterexample): the claim asserts that every word-granularity
parser succeeds exactly on the literals {"1","2","3"}, but
`parse_dupw` also accepts "0" and `parse_movupw`/`parse_movdnw`
reject "1". -/
theorem claim_C2_counterexample :
    parse_dupw ⟨["dupw", "0"]⟩ = .ok (.instruction .DupW0) ∧
    parse_movupw ⟨["movupw", "1"]⟩ = .error (.invalidParam 1) ∧
    parse_movdnw ⟨["movdnw", "1"]⟩ = .error (.invalidParam 1) :=
  ⟨rfl, rfl, rfl⟩

/-- C2 (amended): the word-granularity parsers succeed exactly on
these depth literals — `parse_dupw` on {"0","1","2","3"},
`parse_swapw` on {"1","2","3"}, `parse_movupw` and `parse_movdnw` on
{"2","3"} — and every other single-parameter literal yields
`InvalidParam`. -/
theorem claim_C2_amended (s : String) :
    ((∃ n, parse_dupw ⟨["dupw", s]⟩ = .ok n) ↔ s ∈ ["0", "1", "2", "3"]) ∧
    (¬ s ∈ ["0", "1", "2", "3"] →
      parse_dupw ⟨["dupw", s]⟩ = .error (.invalidParam 1)) ∧
    ((∃ n, parse_swapw ⟨["swapw", s]⟩ = .ok n) ↔ s ∈ ["1", "2", "3"]) ∧
    (¬ s ∈ ["1", "2", "3"] →
      parse_swapw ⟨["swapw", s]⟩ = .error (.invalidParam 1)) ∧
    ((∃ n, parse_movupw ⟨["movupw", s]⟩ = .ok n) ↔ s ∈ ["2", "3"]) ∧
    (¬ s ∈ ["2", "3"] →
      parse_movupw ⟨["movupw", s]⟩ = .error (.invalidParam 1)) ∧
    ((∃ n, parse_movdnw ⟨["movdnw", s]⟩ = .ok n) ↔ s ∈ ["2", "3"]) ∧
    (¬ s ∈ ["2", "3"] →
      parse_movdnw ⟨["movdnw", s]⟩ = .error (.invalidParam 1)) := by
  have h1 := table_parse_iff dupwArms s (parse_dupw ⟨["dupw", s]⟩) rfl
  have h2 := table_parse_iff swapwArms s (parse_swapw ⟨["swapw", s]⟩) rfl
  have h3 := table_parse_iff movupwArms s (parse_movupw ⟨["movupw", s]⟩) rfl
  have h4 := table_parse_iff movdnwArms s (parse_movdnw ⟨["movdnw", s]⟩) rfl
  have e1 : dupwArms.map Prod.fst = ["0", "1", "2", "3"] := rfl
  have e2 : swapwArms.map Prod.fst = ["1", "2", "3"] := rfl
  have e3 : movupwArms.map Prod.fst = ["2", "3"] := rfl
  have e4 : movdnwArms.map Prod.fst = ["2", "3"] := rfl
  rw [e1] at h1
  rw [e2] at h2
  rw [e3] at h3
  rw [e4] at h4
  exact ⟨h1.1, h1.2, h2.1, h2.2, h3.1, h3.2, h4.1, h4.2⟩

/-- C2 (amended, witness): instantiated at the literal "9", which is
outside every word-granularity legal-depth set. -/
theorem claim_C2_amended_witness :
    ¬ ("9" : String) ∈ ["0", "1", "2", "3"] ∧
    parse_dupw ⟨["dupw", "9"]⟩ = .error (.invalidParam 1) :=
  ⟨by decide, (claim_C2_amended "9").2.1 (by decide)⟩

/-- C3: the scalar depth-selector parsers succeed exactly on these
depth literals — `parse_dup` on "0"–"15", `parse_swap` on "1"–"15",
`parse_movup` and `parse_movdn` on "2"–"15" — and every other
single-parameter literal yields `InvalidParam`. -/
theorem claim_C3 (s : String) :
    ((∃ n, parse_dup ⟨["dup", s]⟩ = .ok n) ↔
      s ∈ ["0", "1", "2", "3", "4", "5", "6", "7", "8", "9", "10", "11",
           "12", "13", "14", "15"]) ∧
    (¬ s ∈ ["0", "1", "2", "3", "4", "5", "6", "7", "8", "9", "10", "11",
            "12", "13", "14", "15"] →
      parse_dup ⟨["dup", s]⟩ = .error (.invalidParam 1)) ∧
    ((∃ n, parse_swap ⟨["swap", s]⟩ = .ok n) ↔
      s ∈ ["1", "2", "3", "4", "5", "6", "7", "8", "9", "10", "11",
           "12", "13", "14", "15"]) ∧
    (¬ s ∈ ["1", "2", "3", "4", "5", "6", "7", "8", "9", "10", "11",
            "12", "13", "14", "15"] →
      parse_swap ⟨["swap", s]⟩ = .error (.invalidParam 1)) ∧
    ((∃ n, parse_movup ⟨["movup", s]⟩ = .ok n) ↔
      s ∈ ["2", "3", "4", "5", "6", "7", "8", "9", "10", "11",
           "12", "13", "14", "15"]) ∧
    (¬ s ∈ ["2", "3", "4", "5", "6", "7", "8", "9", "10", "11",
            "12", "13", "14", "15"] →
      parse_movup ⟨["movup", s]⟩ = .error (.invalidParam 1)) ∧
    ((∃ n, parse_movdn ⟨["movdn", s]⟩ = .ok n) ↔
      s ∈ ["2", "3", "4", "5", "6", "7", "8", "9", "10", "11",
           "12", "13", "14", "15"]) ∧
    (¬ s ∈ ["2", "3", "4", "5", "6", "7", "8", "9", "10", "11",
            "12", "13", "14", "15"] →
      parse_movdn ⟨["movdn", s]⟩ = .error (.invalidParam 1)) := by
  have h1 := table_parse_iff dupArms s (parse_dup ⟨["dup", s]⟩) rfl
  have h2 := table_parse_iff swapArms s (parse_swap ⟨["swap", s]⟩) rfl
  have h3 := table_parse_iff movupArms s (parse_movup ⟨["movup", s]⟩) rfl
  have h4 := table_parse_iff movdnArms s (parse_movdn ⟨["movdn", s]⟩) rfl
  have e1 : dupArms.map Prod.fst =
      ["0", "1", "2", "3", "4", "5", "6", "7", "8", "9", "10", "11",
       "12", "13", "14", "15"] := rfl
  have e2 : swapArms.map Prod.fst =
      ["1", "2", "3", "4", "5", "6", "7", "8", "9", "10", "11",
       "12", "13", "14", "15"] := rfl
  have e3 : movupArms.map Prod.fst =
      ["2", "3", "4", "5", "6", "7", "8", "9", "10", "11",
       "12", "13", "14", "15"] := rfl
  have e4 : movdnArms.map Prod.fst =
      ["2", "3", "4", "5", "6", "7", "8", "9", "10", "11",
       "12", "13", "14", "15"] := rfl
  rw [e1] at h1
  rw [e2] at h2
  rw [e3] at h3
  rw [e4] at h4
  exact ⟨h1.1, h1.2, h2.1, h2.2, h3.1, h3.2, h4.1, h4.2⟩

/-- C3 (witness): instantiated at the literal "16", which is outside
every scalar legal-depth set. -/
theorem claim_C3_witness :
    ¬ ("16" : String) ∈ ["0", "1", "2", "3", "4", "5", "6", "7", "8", "9",
        "10", "11", "12", "13", "14", "15"] ∧
    parse_dup ⟨["dup", "16"]⟩ = .error (.invalidParam 1) :=
  ⟨by decide, (claim_C3 "16").2.1 (by decide)⟩

/-- A successful byte parse is within the byte range. -/
theorem parseU8_le (s : String) (d : Nat) (h : parseU8 s = some d) : d ≤ 255 := by
  unfold parseU8 at h
  cases hv : (match s.data with
              | '+' :: cs => decDigits cs
              | cs => decDigits cs) with
  | none =>
    rw [hv] at h
    simp at h
  | some n =>
    rw [hv] at h
    by_cases hn : n ≤ 255 <;> simp [hn] at h
    omega

/-- C4: every recognized `adv` sub-mnemonic takes exactly zero
further parameters except `insert_hdword`: with no parameter it
yields domain 0, with a parameter that parses as a byte in [0, 255]
it yields that domain, and with a parameter that does not parse as a
byte it yields `InvalidParam`. -/
theorem claim_C4 :
    (∀ sub p, sub ∈ ["push_u64div", "push_ext2intt", "push_smtget",
        "push_mapval", "push_mtnode", "insert_mem"] →
      parse_adv_inject ⟨["adv", sub, p]⟩ = .error .extraParam) ∧
    parse_adv_inject ⟨["adv", "insert_hdword"]⟩ =
      .ok (.instruction (.AdvInject (.InsertHdword 0))) ∧
    (∀ s d, parseU8 s = some d →
      parse_adv_inject ⟨["adv", "insert_hdword", s]⟩ =
        .ok (.instruction (.AdvInject (.InsertHdword d)))) ∧
    (∀ s, parseU8 s = none →
      parse_adv_inject ⟨["adv", "insert_hdword", s]⟩ =
        .error (.invalidParam 2)) := by
  refine ⟨?_, rfl, ?_, ?_⟩
  · intro sub p hsub
    fin_cases hsub <;> rfl
  · intro s d hs
    have heq : parse_adv_inject ⟨["adv", "insert_hdword", s]⟩ =
        (match parse_checked_param ⟨["adv", "insert_hdword", s]⟩ 2 0 255 with
         | .ok domain => .ok (.instruction (.AdvInject (.InsertHdword domain)))
         | .error e => .error e) := rfl
    have hle := parseU8_le s d hs
    rw [heq]
    simp [parse_checked_param, hs, hle]
  · intro s hs
    have heq : parse_adv_inject ⟨["adv", "insert_hdword", s]⟩ =
        (match parse_checked_param ⟨["adv", "insert_hdword", s]⟩ 2 0 255 with
         | .ok domain => .ok (.instruction (.AdvInject (.InsertHdword domain)))
         | .error e => .error e) := rfl
    rw [heq]
    simp [parse_checked_param, hs]

/-- C4 (witness): instantiated at the domain literal "37" (which
parses) and at "-1" (which does not). -/
theorem claim_C4_witness :
    parseU8 "37" = some 37 ∧
    parse_adv_inject ⟨["adv", "insert_hdword", "37"]⟩ =
      .ok (.instruction (.AdvInject (.InsertHdword 37))) ∧
    parseU8 "-1" = none ∧
    parse_adv_inject ⟨["adv", "insert_hdword", "-1"]⟩ =
      .error (.invalidParam 2) :=
  ⟨rfl, claim_C4.2.2.1 "37" 37 rfl, rfl, claim_C4.2.2.2 "-1" rfl⟩

/-- C5: `adv.push_u64div` parses with zero extra parameters,
`adv.push_u64div.1` yields `ExtraParam`, and the unrecognized
`adv.bogus` yields `InvalidOp`. -/
theorem claim_C5 :
    parse_adv_inject ⟨["adv", "push_u64div"]⟩ =
      .ok (.instruction (.AdvInject .PushU64div)) ∧
    parse_adv_inject ⟨["adv", "push_u64div", "1"]⟩ = .error .extraParam ∧
    parse_adv_inject ⟨["adv", "bogus"]⟩ = .error .invalidOp :=
  ⟨rfl, rfl, rfl⟩

/-- C6: one parameter fewer than the minimum arity yields
`MissingParam` (bare `movup`, `movdn`, `movupw`, `movdnw`, `adv`) and
one parameter more than the maximum yields `ExtraParam` (a second
depth or domain parameter), across every family parser in the
visible code. -/
theorem claim_C6 :
    parse_movup ⟨["movup"]⟩ = .error .missingParam ∧
    parse_movdn ⟨["movdn"]⟩ = .error .missingParam ∧
    parse_movupw ⟨["movupw"]⟩ = .error .missingParam ∧
    parse_movdnw ⟨["movdnw"]⟩ = .error .missingParam ∧
    parse_adv_inject ⟨["adv"]⟩ = .error .missingParam ∧
    parse_movup ⟨["movup", "2", "3"]⟩ = .error .extraParam ∧
    parse_movdn ⟨["movdn", "2", "3"]⟩ = .error .extraParam ∧
    parse_movupw ⟨["movupw", "2", "3"]⟩ = .error .extraParam ∧
    parse_movdnw ⟨["movdnw", "2", "3"]⟩ = .error .extraParam ∧
    parse_dup ⟨["dup", "0", "0"]⟩ = .error .extraParam ∧
    parse_dupw ⟨["dupw", "0", "0"]⟩ = .error .extraParam ∧
    parse_swap ⟨["swap", "1", "1"]⟩ = .error .extraParam ∧
    parse_swapw ⟨["swapw", "1", "1"]⟩ = .error .extraParam ∧
    parse_adv_inject ⟨["adv", "push_u64div", "1"]⟩ = .error .extraParam ∧
    parse_adv_inject ⟨["adv", "insert_hdword", "0", "0"]⟩ = .error .extraParam :=
  ⟨rfl, rfl, rfl, rfl, rfl, rfl, rfl, rfl, rfl, rfl, rfl, rfl, rfl, rfl, rfl⟩

/-- C7: for the byte-range-validated domain immediate of
`adv.insert_hdword` (range [0, 255]), the bounds "0" and "255"
themselves succeed, while "-1", "256" and a non-numeric string all
yield `InvalidParam`. -/
theorem claim_C7 :
    parse_checked_param ⟨["adv", "insert_hdword", "0"]⟩ 2 0 255 = .ok 0 ∧
    parse_checked_param ⟨["adv", "insert_hdword", "255"]⟩ 2 0 255 = .ok 255 ∧
    parse_checked_param ⟨["adv", "insert_hdword", "-1"]⟩ 2 0 255 =
      .error (.invalidParam 2) ∧
    parse_checked_param ⟨["adv", "insert_hdword", "256"]⟩ 2 0 255 =
      .error (.invalidParam 2) ∧
    parse_checked_param ⟨["adv", "insert_hdword", "abc"]⟩ 2 0 255 =
      .error (.invalidParam 2) ∧
    parse_adv_inject ⟨["adv", "insert_hdword", "0"]⟩ =
      .ok (.instruction (.AdvInject (.InsertHdword 0))) ∧
    parse_adv_inject ⟨["adv", "insert_hdword", "255"]⟩ =
      .ok (.instruction (.AdvInject (.InsertHdword 255))) ∧
    parse_adv_inject ⟨["adv", "insert_hdword", "-1"]⟩ =
      .error (.invalidParam 2) ∧
    parse_adv_inject ⟨["adv", "insert_hdword", "256"]⟩ =
      .error (.invalidParam 2) :=
  ⟨rfl, rfl, rfl, rfl, rfl, rfl, rfl, rfl, rfl⟩

/-- C9: the defaulted depth is indistinguishable from the explicit
minimal depth: `dup` parses to the same node as `dup.0`, `dupw` as
`dupw.0`, `swap` as `swap.1`, `swapw` as `swapw.1`. -/
theorem claim_C9 :
    parse_dup ⟨["dup"]⟩ = parse_dup ⟨["dup", "0"]⟩ ∧
    parse_dupw ⟨["dupw"]⟩ = parse_dupw ⟨["dupw", "0"]⟩ ∧
    parse_swap ⟨["swap"]⟩ = parse_swap ⟨["swap", "1"]⟩ ∧
    parse_swapw ⟨["swapw"]⟩ = parse_swapw ⟨["swapw", "1"]⟩ :=
  ⟨rfl, rfl, rfl, rfl⟩

/-- C10: whenever the token contains at least its mnemonic,
`parse_dup`, `parse_dupw`, `parse_swap` and `parse_swapw` never
return `MissingParam`: every error they produce is `InvalidParam`
or `ExtraParam`. -/
theorem claim_C10 (t : Token) (h : 1 ≤ t.parts.length) :
    (∀ e, parse_dup t = .error e → e = .extraParam ∨ ∃ i, e = .invalidParam i) ∧
    (∀ e, parse_dupw t = .error e → e = .extraParam ∨ ∃ i, e = .invalidParam i) ∧
    (∀ e, parse_swap t = .error e → e = .extraParam ∨ ∃ i, e = .invalidParam i) ∧
    (∀ e, parse_swapw t = .error e → e = .extraParam ∨ ∃ i, e = .invalidParam i) := by
  obtain ⟨parts⟩ := t
  match parts, h with
  | [x], _ =>
    refine ⟨?_, ?_, ?_, ?_⟩ <;> intro e he <;>
      simp [parse_dup, parse_dupw, parse_swap, parse_swapw, validate_operation,
        Token.num_parts] at he
  | [x, p], _ =>
    refine ⟨?_, ?_, ?_, ?_⟩ <;> intro e he
    · cases hl : lookupArm dupArms p <;>
        simp [parse_dup, hl] at he
      exact Or.inr ⟨1, he.symm⟩
    · cases hl : lookupArm dupwArms p <;>
        simp [parse_dupw, hl] at he
      exact Or.inr ⟨1, he.symm⟩
    · cases hl : lookupArm swapArms p <;>
        simp [parse_swap, validate_operation, Token.num_parts, hl] at he
      exact Or.inr ⟨1, he.symm⟩
    · cases hl : lookupArm swapwArms p <;>
        simp [parse_swapw, validate_operation, Token.num_parts, hl] at he
      exact Or.inr ⟨1, he.symm⟩
  | x :: y :: z :: tl, _ =>
    refine ⟨?_, ?_, ?_, ?_⟩ <;> intro e he
    · simp [parse_dup] at he
      exact Or.inl he.symm
    · simp [parse_dupw] at he
      exact Or.inl he.symm
    · simp only [parse_swap, validate_operation, Token.num_parts,
        List.length_cons] at he
      rw [if_neg (by omega), if_pos (by omega)] at he
      simp at he
      exact Or.inl he.symm
    · simp only [parse_swapw, validate_operation, Token.num_parts,
        List.length_cons] at he
      rw [if_neg (by omega), if_pos (by omega)] at he
      simp at he
      exact Or.inl he.symm

/-- C10 (witness): instantiated at the one-part token `dup` and, via
the error classification, at the hypothesis 1 ≤ num_parts. -/
theorem claim_C10_witness :
    1 ≤ (Token.mk ["dup", "16"]).parts.length ∧
    ((ParsingError.invalidParam 1) = .extraParam ∨
      ∃ i, (ParsingError.invalidParam 1) = .invalidParam i) :=
  ⟨by decide, (claim_C10 ⟨["dup", "16"]⟩ (by decide)).1 (.invalidParam 1) rfl⟩

/-- C8: deserializing the bytes produced by serialization yields the
original AST, for every well-formed `ProgramAst` and `ModuleAst`
(§3's construction invariant guarantees well-formedness of every
successfully parsed AST), including empty bodies, deeply nested
control flow, and every instruction variant. -/
theorem claim_C8 :
    (∀ ast : ProgramAst, wfProgram ast = true →
      programFromBytes (programToBytes ast) = some ast) ∧
    (∀ m : ModuleAst, wfModule m = true →
      moduleFromBytes (moduleToBytes m) = some m) :=
  ⟨programFromBytes_programToBytes, moduleFromBytes_moduleToBytes⟩

/-- C8 (witness): instantiated at a concrete program with nested
control flow and a concrete module. -/
theorem claim_C8_witness :
    wfProgram sampleProgram = true ∧
    programFromBytes (programToBytes sampleProgram) = some sampleProgram ∧
    wfModule sampleModule = true ∧
    moduleFromBytes (moduleToBytes sampleModule) = some sampleModule := by
  have h1 : wfProgram sampleProgram = true := by
    simp [sampleProgram, wfProgram, wfProc, wfNodes, wfNode, wfInstr]
  have h2 : wfModule sampleModule = true := by
    simp [sampleModule, wfModule, wfProc, wfNodes, wfNode, wfInstr]
  exact ⟨h1, claim_C8.1 sampleProgram h1, h2, claim_C8.2 sampleModule h2⟩

end Miden
